import Mathlib

/-!
Verification of the `generate_context.py` report generator.

The Python source is shallowly embedded below: pure functions become Lean
functions over explicit data models; filesystem and JSON-parsing results are
supplied as fields of the file model (the oracle outcomes of the effectful
calls the Python code makes); machine integers are `Nat` (all quantities
involved are non-negative byte counts, character counts, or list lengths).
Python strings are modelled by Lean `String` viewed as its list of
characters (`String.data`), matching Python's code-point semantics of
`len`, slicing, `split`, `join`, `startswith`, `endswith` and `lower` for
the inputs involved.
-/

namespace GenCtx

/-! ## Python string primitives (char-list based) -/

/-- Python `s.lower()` (ASCII case folding, as used on extensions here). -/
def pyLower (s : String) : String := String.mk (s.data.map Char.toLower)

/-- Python `s.endswith(t)`. -/
def pyEndsWith (s t : String) : Bool := t.data.isSuffixOf s.data

/-- Python `s.startswith(t)`. -/
def pyStartsWith (s t : String) : Bool := t.data.isPrefixOf s.data

/-- Python slice `s[:n]` (by code points). -/
def pyTake (n : Nat) (s : String) : String := String.mk (s.data.take n)

/-- Python slice `s[n:]` (by code points). -/
def pyDrop (n : Nat) (s : String) : String := String.mk (s.data.drop n)

/-- Position where `os.path.splitext` starts the extension of a basename:
the last `.` that has some non-dot character before it (CPython
`genericpath._splitext` restricted to a path-free basename). -/
def extStart (cs : List Char) : Option Nat :=
  ((List.range cs.length).filter
    (fun i => cs.getD i ' ' == '.' && (cs.take i).any (fun c => !(c == '.')))).getLast?

/-- `os.path.splitext(filename)[1]` for a basename. -/
def pyExt (s : String) : String :=
  match extStart s.data with
  | some i => String.mk (s.data.drop i)
  | none => ""

/-- `os.path.splitext(filename)[1].lower()`. -/
def extLower (s : String) : String := pyLower (pyExt s)

/-- Python `s.split('\n')` on the character list, keeping empty pieces. -/
def splitNlChars : List Char → List (List Char)
  | [] => [[]]
  | c :: cs =>
    let r := splitNlChars cs
    if c = '\n' then [] :: r
    else
      match r with
      | [] => [[c]]
      | h :: t => (c :: h) :: t

/-- Python `s.split('\n')`. -/
def pySplitNl (s : String) : List String := (splitNlChars s.data).map String.mk

/-- Python `'\n'.join(parts)`. -/
def pyJoinNl (parts : List String) : String :=
  String.mk (List.intercalate ['\n'] (parts.map String.data))

/-- Python `sep.join(parts)` for an arbitrary separator. -/
def pyJoin (sep : String) (parts : List String) : String :=
  String.mk (List.intercalate sep.data (parts.map String.data))

/-- Iterating a text file in Python yields its lines, each keeping its
trailing newline (the final line keeps none if the file does not end in a
newline); an empty file yields no lines. -/
def fileLinesChars : List Char → List (List Char)
  | [] => []
  | c :: cs =>
    let r := fileLinesChars cs
    if c = '\n' then ['\n'] :: r
    else
      match r with
      | [] => [[c]]
      | h :: t => (c :: h) :: t

/-- The lines of a file as Python file iteration produces them. -/
def pyFileLines (s : String) : List String := (fileLinesChars s.data).map String.mk

/-! ## Configuration constants (transcribed from the source) -/

def OUTPUT_FILE : String := "directory_info.txt"

def SCRIPT_NAME : String := "generate_context.py"

/-- `SEPARATOR = "\n" + "=" * 80 + "\n"`. -/
def SEPARATOR : String := "\n" ++ String.mk (List.replicate 80 '=') ++ "\n"

def MAX_FILES_PER_DIR : Nat := 30

def MAX_FILE_SIZE_FULL : Nat := 20000

/-- `MAX_FILE_SIZE_PARTIAL` in the source: the absolute 200,000-byte ceiling. -/
def MAX_FILE_SIZE_CEIL : Nat := 200000

def MAX_LINES_PREVIEW : Nat := 100

def ESTIMATED_CHARS_PER_TOKEN : Nat := 4

def EXTENSIONS_TO_SKIP : List String :=
  [".flac", ".wav", ".mp3", ".ogg", ".m4a", ".aac", ".wma", ".aiff",
   ".mp4", ".avi", ".mkv", ".mov", ".wmv", ".webm", ".flv",
   ".png", ".jpg", ".jpeg", ".gif", ".bmp", ".tiff", ".ico", ".webp", ".svg",
   ".pdf", ".doc", ".docx", ".xls", ".xlsx", ".ppt", ".pptx", ".odt",
   ".zip", ".rar", ".7z", ".tar", ".gz", ".bz2", ".xz", ".zst",
   ".exe", ".dll", ".so", ".dylib", ".bin", ".o", ".a", ".lib",
   ".pkl", ".pickle", ".npy", ".npz", ".h5", ".hdf5",
   ".pt", ".pth", ".ckpt", ".safetensors", ".onnx", ".pb",
   ".db", ".sqlite", ".sqlite3", ".mdb",
   ".pyc", ".pyo", ".class", ".jar", ".war", ".woff", ".woff2", ".ttf", ".eot"]

def TEXT_EXTENSIONS : List String :=
  [".py", ".js", ".ts", ".jsx", ".tsx", ".java", ".c", ".cpp", ".h", ".hpp",
   ".cs", ".go", ".rs", ".rb", ".php", ".swift", ".kt", ".scala", ".r",
   ".lua", ".pl", ".pm", ".sh", ".bash", ".zsh", ".fish", ".ps1", ".bat", ".cmd",
   ".json", ".yaml", ".yml", ".toml", ".ini", ".cfg", ".conf", ".config",
   ".env", ".env.example", ".env.local", ".properties",
   ".md", ".rst", ".txt", ".adoc",
   ".html", ".htm", ".css", ".scss", ".sass", ".less", ".vue", ".svelte",
   ".xml", ".csv", ".sql",
   ".gitignore", ".dockerignore", ".editorconfig", ".prettierrc", ".eslintrc"]

def PRIORITY_FILES : List String :=
  ["README.md", "readme.md", "README.rst", "README.txt", "README",
   "pyproject.toml", "setup.py", "setup.cfg", "requirements.txt",
   "package.json", "Cargo.toml", "go.mod", "Gemfile", "pom.xml",
   "Makefile", "Dockerfile", "docker-compose.yml", "docker-compose.yaml",
   ".env.example", "config.yaml", "config.json", "settings.py",
   "main.py", "app.py", "index.js", "index.ts", "main.go", "main.rs"]

/-! ## Utility functions -/

/-- `estimate_tokens(text)` from the source: `len(text) // 4`. -/
def estimate_tokens (text : String) : Nat := text.length / ESTIMATED_CHARS_PER_TOKEN

/-- The token estimate the summary footer actually prints:
`estimate_tokens(str(file_stats['total_chars']))` (source line 681) — it
applies `estimate_tokens` to the *decimal string* of the character count. -/
def footer_estimated_tokens (total_chars : Nat) : Nat :=
  estimate_tokens (toString total_chars)

/-- `format_size` from the source, for byte counts below 1024 (where the
Python code prints the integer exactly). For larger counts Python formats
`size / 1024**k` with `"%.1f"` on a binary float; that is modelled here by
decimal fixed-point arithmetic with one digit (floor), which is
deterministic and agrees with the source's unit selection. No claim
depends on the rendering of the rounded digit. -/
def format_size (n : Nat) : String :=
  if n < 1024 then toString n ++ "B"
  else if n < 1024 * 1024 then
    toString (n / 1024) ++ "." ++ toString ((n * 10 / 1024) % 10) ++ "KB"
  else if n < 1024 * 1024 * 1024 then
    toString (n / (1024 * 1024)) ++ "." ++ toString ((n * 10 / (1024 * 1024)) % 10) ++ "MB"
  else
    toString (n / (1024 * 1024 * 1024)) ++ "." ++
      toString ((n * 10 / (1024 * 1024 * 1024)) % 10) ++ "GB"

/-! ## JSON values and `summarize_json_structure` -/

/-- A parsed JSON value as `json.load` produces it (numbers modelled by
integers; no claim involves floating-point literals). -/
inductive JsonVal where
  | jnull : JsonVal
  | jbool (b : Bool) : JsonVal
  | jint (n : Int) : JsonVal
  | jstr (s : String) : JsonVal
  | jarr (items : List JsonVal) : JsonVal
  | jobj (entries : List (String × JsonVal)) : JsonVal

/-- A single quote character, `'`. -/
def squote : String := String.mk [Char.ofNat 39]

/-- Python `repr` of a string: single-quoted, or double-quoted when the
string contains a single quote (modelled for strings without characters
that `repr` would escape; no claim depends on escape sequences). -/
def pyReprStr (s : String) : String :=
  if s.data.contains (Char.ofNat 39) then "\"" ++ s ++ "\"" else squote ++ s ++ squote

/-- `isinstance(x, (str, int, float, bool, type(None)))`. -/
def isScalar : JsonVal → Bool
  | .jarr _ => false
  | .jobj _ => false
  | _ => true

/-- Python `repr` on the scalar values the summarizer passes to it.
The `jarr`/`jobj` cases are unreachable in the transcription (the code
only calls `repr` on scalars, or on lists of scalars via `pyReprList`). -/
def pyReprAtom : JsonVal → String
  | .jnull => "None"
  | .jbool b => if b then "True" else "False"
  | .jint n => toString n
  | .jstr s => pyReprStr s
  | .jarr _ => ""
  | .jobj _ => ""

/-- Python `repr` of a list of scalars: `[r₁, r₂, …]`. -/
def pyReprList (xs : List JsonVal) : String :=
  "[" ++ pyJoin ", " (xs.map pyReprAtom) ++ "]"

/-- `summarize_json_structure(data, max_depth, current_depth, max_items,
indent)` transcribed from the source. -/
def summarize_json_structure (data : JsonVal) (max_depth current_depth max_items : Nat)
    (ind : String) : String :=
  if _h : current_depth ≥ max_depth then
    match data with
    | .jobj kvs => "\x7b...\x7d (" ++ toString kvs.length ++ " keys)"
    | .jarr xs => "[...] (" ++ toString xs.length ++ " items)"
    | v => pyTake 50 (pyReprAtom v)
  else
    let next_ind := ind ++ "  "
    match data with
    | .jobj kvs =>
      if kvs.isEmpty then "\x7b\x7d"
      else
        let lines := "\x7b" :: (kvs.take max_items).map (fun kv =>
          next_ind ++ "\"" ++ kv.1 ++ "\": " ++
            summarize_json_structure kv.2 max_depth (current_depth + 1) max_items next_ind ++ ",")
        let lines := if kvs.length > max_items then
            lines ++ [next_ind ++ "... +" ++ toString (kvs.length - max_items) ++ " more keys"]
          else lines
        pyJoinNl (lines ++ [ind ++ "\x7d"])
    | .jarr xs =>
      if xs.isEmpty then "[]"
      else if xs.length ≤ 3 ∧ xs.all isScalar then pyReprList xs
      else
        let lines := ("[ // " ++ toString xs.length ++ " items") ::
          (xs.take max_items).map (fun item =>
            next_ind ++
              summarize_json_structure item max_depth (current_depth + 1) max_items next_ind ++ ",")
        let lines := if xs.length > max_items then
            lines ++ [next_ind ++ "... +" ++ toString (xs.length - max_items) ++ " more items"]
          else lines
        pyJoinNl (lines ++ [ind ++ "]"])
    | .jstr s =>
      if s.length > 60 then "\"" ++ pyTake 60 s ++ "...\"" else pyReprStr s
    | v => pyReprAtom v
termination_by max_depth - current_depth
decreasing_by all_goals omega

/-- The trailing note `process_file_content` appends after the JSON
summary: total item count for arrays, the `repr` of the key list for
objects. -/
def json_trailer (v : JsonVal) : String :=
  match v with
  | .jarr xs => "\n\n# Total items: " ++ toString xs.length
  | .jobj kvs =>
    "\n\n# Top-level keys: [" ++ pyJoin ", " (kvs.map (fun kv => pyReprStr kv.1)) ++ "]"
  | _ => ""

/-! ## Notebook extraction (`extract_ipynb_code`) -/

/-- One notebook cell after `json.load`: its `cell_type` and its source
joined to a single string (the code joins list sources with `''.join`). -/
structure NbCell where
  cell_type : String
  source : String
deriving DecidableEq

/-- The lines the loop body of `extract_ipynb_code` appends for cell
number `i` (0-based): a marker plus the raw source for code cells, a
marker plus `# `-prefixed lines for markdown cells shorter than 500
characters, nothing otherwise. -/
def cell_lines (i : Nat) (c : NbCell) : List String :=
  if c.cell_type = "code" then
    ["\n# --- Cell " ++ toString (i + 1) ++ " [Code] ---", c.source]
  else if c.cell_type = "markdown" ∧ c.source.length < 500 then
    ("\n# --- Cell " ++ toString (i + 1) ++ " [Markdown] ---") ::
      (pySplitNl c.source).map (fun line => "# " ++ line)
  else []

/-- The header line of the notebook rendering. -/
def nb_header (cells : List NbCell) : String :=
  "# Jupyter Notebook: " ++
    toString (cells.filter (fun c => c.cell_type == "code")).length ++ " code cells, " ++
    toString (cells.filter (fun c => c.cell_type == "markdown")).length ++ " markdown cells\n"

/-- `extract_ipynb_code` on a successfully parsed notebook: the header
followed by the loop's accumulated parts, joined with newlines. -/
def extract_ipynb_cells (cells : List NbCell) : String :=
  pyJoinNl (nb_header cells ::
    cells.enum.foldl (fun acc p => acc ++ cell_lines p.1 p.2) [])

/-! ## The file model and `process_file_content` -/

/-- One file as `process_file_content` observes it: its basename, its
path relative to the root, and the oracle outcomes of the effectful calls
the Python code makes on it — `os.path.getsize` (`none` = raises), open +
read with `errors='replace'` (`none` = raises, with `readErr` the
exception text), `json.load` of the content (`none` = `JSONDecodeError`,
with `parseErr` its text), and the notebook parse (`none` = any exception
inside `extract_ipynb_code`, with `nbErr` its text). -/
structure SrcFile where
  filename : String
  relPath : String
  size : Option Nat
  content : Option String
  readErr : String
  jsonData : Option JsonVal
  parseErr : String
  nbCells : Option (List NbCell)
  nbErr : String

/-- `extract_ipynb_code(filepath)`: the cell rendering, or the
`Error reading notebook: …` line when opening/parsing raises. -/
def extract_ipynb_code (f : SrcFile) : String :=
  match f.nbCells with
  | some cells => extract_ipynb_cells cells
  | none => "Error reading notebook: " ++ f.nbErr

/-- The `.json` branch of `process_file_content`. -/
def json_content (f : SrcFile) (file_size : Nat) : String :=
  match f.content with
  | none => "[Error reading file: " ++ f.readErr ++ "]"
  | some c =>
    if file_size < 5000 then c
    else
      match f.jsonData with
      | none => "[JSON parse error: " ++ f.parseErr ++ "]"
      | some v =>
        "[JSON file: " ++ format_size file_size ++ "]\n\n" ++
          summarize_json_structure v 4 0 5 "" ++ json_trailer v

/-- The `.jsonl` branch of `process_file_content`: up to the first five
lines (as file iteration yields them, trailing newlines kept). -/
def jsonl_content (f : SrcFile) (file_size : Nat) : String :=
  match f.content with
  | none => "[Error reading file: " ++ f.readErr ++ "]"
  | some c =>
    let ls := (pyFileLines c).take 5
    if ls.isEmpty then "(Empty file)"
    else
      "[JSONL file: " ++ format_size file_size ++ "]\n" ++
        "# First " ++ toString ls.length ++ " lines:\n\n" ++
        String.join ls ++ "\n... (truncated)"

/-- The `.yaml`/`.yml`/`.toml` branch of `process_file_content`: full
content if its character count is at most `MAX_FILE_SIZE_FULL`, else the
first 100 lines plus a `… more lines` note (the count is
`len(content.split(chr(10))) - MAX_LINES_PREVIEW`, a Python int that can
be negative). -/
def config_content (f : SrcFile) : String :=
  match f.content with
  | none => "[Error reading file: " ++ f.readErr ++ "]"
  | some c =>
    if c.length > MAX_FILE_SIZE_FULL then
      pyJoinNl ((pySplitNl c).take MAX_LINES_PREVIEW) ++
        "\n\n... [" ++
        toString (((pySplitNl c).length : Int) - (MAX_LINES_PREVIEW : Int)) ++ " more lines]"
    else c

/-- The final text branch of `process_file_content` (recognized text
extensions, priority filenames, extensionless files): full content when
the byte size is at most `MAX_FILE_SIZE_FULL`, else the first 100 lines
plus a truncation note. -/
def text_content (f : SrcFile) (file_size : Nat) : String :=
  match f.content with
  | none => "[Error reading file: " ++ f.readErr ++ "]"
  | some c =>
    if file_size > MAX_FILE_SIZE_FULL then
      pyJoinNl ((pySplitNl c).take MAX_LINES_PREVIEW) ++
        "\n\n... [truncated - " ++ format_size file_size ++ " total]"
    else c

/-- `process_file_content(filepath, filename)` transcribed from the
source: `none` is Python's `None` (the caller counts the file as
skipped). -/
def process_file_content (f : SrcFile) : Option String :=
  let ext := extLower f.filename
  match f.size with
  | none => none
  | some file_size =>
    if file_size > MAX_FILE_SIZE_CEIL then
      some ("[File too large: " ++ format_size file_size ++ " - skipped]")
    else if pyEndsWith f.filename ".ipynb" then
      some (extract_ipynb_code f)
    else if ext = ".json" then
      some (json_content f file_size)
    else if ext = ".jsonl" then
      some (jsonl_content f file_size)
    else if ext = ".yaml" ∨ ext = ".yml" ∨ ext = ".toml" then
      some (config_content f)
    else if ext ∈ TEXT_EXTENSIONS ∨ f.filename ∈ PRIORITY_FILES ∨ ext = "" then
      some (text_content f file_size)
    else
      none

/-! ## `process_files` and its statistics -/

/-- The `stats` dictionary of `process_files`. -/
structure RunStats where
  processed : Nat
  skipped : Nat
  errors : Nat
  total_chars : Nat
deriving DecidableEq

/-- One iteration of the `process_files` loop: count the file and append
its block to the output. -/
def process_files_step (acc : RunStats × String) (f : SrcFile) : RunStats × String :=
  match process_file_content f with
  | none => ({ acc.1 with skipped := acc.1.skipped + 1 }, acc.2)
  | some content =>
    let st := acc.1
    let st := if pyStartsWith content "[Error" then { st with errors := st.errors + 1 } else st
    ({ st with processed := st.processed + 1, total_chars := st.total_chars + content.length },
      acc.2 ++ SEPARATOR ++ "FILE: " ++ f.relPath ++ "\n" ++ SEPARATOR ++ content ++ "\n")

/-- `process_files(files, output_handle)`: the final statistics and the
text written for the file-contents section. -/
def process_files (files : List SrcFile) : RunStats × String :=
  files.foldl process_files_step (⟨0, 0, 0, 0⟩, "")

/-! ## The directory tree and `get_directory_structure`'s walker -/

/-- A snapshot of the filesystem under one name: a regular file with its
byte size, or a directory with its children. The children list carries
the (arbitrary) order in which `os.listdir` would report them; the walker
sorts it, exactly as the source does. -/
inductive FSNode where
  | file (name : String) (size : Nat) : FSNode
  | dir (name : String) (children : List FSNode) : FSNode

def nodeName : FSNode → String
  | .file n _ => n
  | .dir n _ => n

def isDirNode : FSNode → Bool
  | .dir _ _ => true
  | .file _ _ => false

/-- `should_exclude_dir(dirname, exclude_set)` from the source. -/
def should_exclude_dir (dirname : String) (excl : List String) : Bool :=
  excl.contains dirname ||
    excl.any (fun pat => pyStartsWith pat "*" && pyEndsWith dirname (pyDrop 1 pat))

/-- The three configuration sets `get_directory_structure` receives. -/
structure TreeCfg where
  exclude_dirs : List String
  summarize_dirs : List String
  gitignore_patterns : List String

/-- Lexicographic comparison of strings by code point, as Python
compares `str` (and as `sorted` orders `os.listdir` results). -/
def charListLe : List Char → List Char → Bool
  | [], _ => true
  | _ :: _, [] => false
  | a :: as, b :: bs =>
    if a.toNat < b.toNat then true
    else if b.toNat < a.toNat then false
    else charListLe as bs

/-- The sort key used on directory entries: name order
(`sorted(os.listdir(path))`). -/
def byNameLe (a b : FSNode) : Bool := charListLe (nodeName a).data (nodeName b).data

/-- `sorted(os.listdir(path))` on a children list. -/
def sortByName (cs : List FSNode) : List FSNode := cs.mergeSort byNameLe

/-- One `defaultdict(int)` increment, keeping Python's insertion order of
keys. -/
def bumpCount (acc : List (String × Nat)) (key : String) : List (String × Nat) :=
  if acc.any (fun p => p.1 == key) then
    acc.map (fun p => if p.1 == key then (p.1, p.2 + 1) else p)
  else acc ++ [(key, 1)]

/-- `sorted(counts.items(), key=lambda x: -x[1])`: stable sort by count
descending (Python's `sorted` is stable, so ties keep insertion order). -/
def sortByCountDesc (l : List (String × Nat)) : List (String × Nat) :=
  l.mergeSort (fun a b => decide (b.2 ≤ a.2))

/-- The extension histogram of a summarized directory
(`splitext(f)[1].lower() or '(no ext)'`). -/
def summarize_ext_counts (files : List (String × Nat)) : List (String × Nat) :=
  files.foldl (fun acc f =>
    let e := extLower f.1
    bumpCount acc (if e = "" then "(no ext)" else e)) []

/-- The single aggregate line of a summarized directory (without its
indentation). -/
def dir_summary_line (files : List (String × Nat)) : String :=
  let parts := ((sortByCountDesc (summarize_ext_counts files)).take 5).map
    (fun p => toString p.2 ++ p.1)
  "📦 [" ++ toString files.length ++ " files, " ++
    format_size (files.foldl (fun a f => a + f.2) 0) ++ "]: " ++ pyJoin ", " parts

/-- The show-able files of a non-summarized directory (extension not in
the skip set), in listing order. -/
def files_to_show (files : List (String × Nat)) : List (String × Nat) :=
  files.filter (fun f => !(EXTENSIONS_TO_SKIP.contains (extLower f.1)))

/-- The `skipped_by_ext` counter of a non-summarized directory. -/
def skipped_by_ext (files : List (String × Nat)) : List (String × Nat) :=
  files.foldl (fun acc f =>
    let e := extLower f.1
    if EXTENSIONS_TO_SKIP.contains e then bumpCount acc e else acc) []

def lastConn : String := "└── "

def midConn : String := "├── "

/-- The grouped `[skipped: …]` payload: top-5 skipped extensions by
count. -/
def skip_summary (skipped : List (String × Nat)) : String :=
  pyJoin ", " (((sortByCountDesc skipped).take 5).map (fun p => toString p.2 ++ p.1))

/-- The capped per-file lines of `_walk_dir` (the
`for f in files_to_show[:MAX_FILES_PER_DIR]` loop): `entry_idx` for the
line at 0-based position `p.1` is `p.1 + 1`. -/
def file_lines (newPre : String) (showable : List (String × Nat)) (totalEntries : Nat) :
    List String :=
  (showable.take MAX_FILES_PER_DIR).enum.map (fun p =>
    newPre ++ (if p.1 + 1 = totalEntries then lastConn else midConn) ++ p.2.1 ++
      " (" ++ format_size p.2.2 ++ ")")

/-- The single `... and N more files` overflow line, present exactly
when more than `MAX_FILES_PER_DIR` show-able files exist. -/
def more_lines (newPre : String) (showable : List (String × Nat)) (totalEntries : Nat) :
    List String :=
  if showable.length > MAX_FILES_PER_DIR then
    [newPre ++
      (if (showable.take MAX_FILES_PER_DIR).length + 1 = totalEntries then lastConn
       else midConn) ++
      "... and " ++ toString (showable.length - MAX_FILES_PER_DIR) ++ " more files"]
  else []

/-- The value of `entry_idx` after the file and overflow lines. -/
def idx_after_more (showable : List (String × Nat)) : Nat :=
  if showable.length > MAX_FILES_PER_DIR then (showable.take MAX_FILES_PER_DIR).length + 1
  else (showable.take MAX_FILES_PER_DIR).length

/-- The single grouped `[skipped: …]` line, present exactly when some
file was skipped by extension. -/
def skip_lines (newPre : String) (showable skipped : List (String × Nat))
    (totalEntries : Nat) : List String :=
  if skipped.isEmpty then []
  else
    [newPre ++ (if idx_after_more showable + 1 = totalEntries then lastConn else midConn) ++
      "[skipped: " ++ skip_summary skipped ++ "]"]

/-- The file/overflow/skip lines of a non-summarized directory together
with the final `entry_idx`, transcribing the three `entry_idx`-counting
blocks of `_walk_dir`. -/
def files_section (newPre : String) (showable skipped : List (String × Nat))
    (totalEntries : Nat) : List String × Nat :=
  (file_lines newPre showable totalEntries ++ more_lines newPre showable totalEntries ++
    skip_lines newPre showable skipped totalEntries,
   if skipped.isEmpty then idx_after_more showable else idx_after_more showable + 1)

/-- The retained subdirectories of a directory, from its sorted entries. -/
def childDirs (cfg : TreeCfg) (entries : List FSNode) : List FSNode :=
  entries.filter (fun e =>
    isDirNode e && !(should_exclude_dir (nodeName e) cfg.exclude_dirs) &&
      !(cfg.gitignore_patterns.contains (nodeName e)))

/-- The retained files of a directory (name and size), from its sorted
entries: the output file, the script itself and gitignored names are
dropped. -/
def childFiles (cfg : TreeCfg) (entries : List FSNode) : List (String × Nat) :=
  entries.filterMap (fun e =>
    match e with
    | .file fn sz =>
      if fn ≠ OUTPUT_FILE ∧ fn ≠ SCRIPT_NAME ∧ ¬ cfg.gitignore_patterns.contains fn then
        some (fn, sz)
      else none
    | .dir _ _ => none)

/-- `_walk_dir(path, prefix, is_last)` transcribed from the source (the
`isRoot` flag plays the `path == rootdir` test; permission errors are not
modelled — the snapshot is taken to be listable). Applied to a `file`
node it returns nothing (the walker is only ever invoked on
directories). -/
def walk_dir (cfg : TreeCfg) : FSNode → String → Bool → Bool → List String
  | .file _ _, _, _, _ => []
  | .dir name cs, pre, isLast, isRoot =>
    let headLine := if isRoot then name ++ "/"
      else pre ++ (if isLast then lastConn else midConn) ++ name ++ "/"
    let newPre := if isRoot then "" else pre ++ (if isLast then "    " else "│   ")
    let entries := sortByName cs
    let dirs := childDirs cfg entries
    let files := childFiles cfg entries
    if cfg.summarize_dirs.contains name then
      headLine :: (if files.isEmpty then [] else [newPre ++ dir_summary_line files])
    else
      let showable := files_to_show files
      let skipped := skipped_by_ext files
      let totalEntries := dirs.length + showable.length + (if skipped.isEmpty then 0 else 1)
      let fs := files_section newPre showable skipped totalEntries
      let subLines := dirs.enum.attach.map (fun p =>
        walk_dir cfg p.1.2 newPre
          (decide (p.1.1 = dirs.length - 1) && decide (fs.2 = totalEntries)) false)
      headLine :: (fs.1 ++ subLines.flatten)
termination_by t => sizeOf t
decreasing_by
  have h1 : p.1.2 ∈ childDirs cfg (sortByName cs) := List.snd_mem_of_mem_enum p.2
  have h2 : p.1.2 ∈ sortByName cs := List.mem_of_mem_filter h1
  have h3 : p.1.2 ∈ cs := List.mem_mergeSort.mp h2
  have h4 : sizeOf p.1.2 < sizeOf cs := List.sizeOf_lt_of_mem h3
  simp only [FSNode.dir.sizeOf_spec]
  omega

/-- `get_directory_structure`'s returned tree text: the walk of the root
joined with newlines. -/
def get_directory_structure (cfg : TreeCfg) (root : FSNode) : String :=
  pyJoinNl (walk_dir cfg root "" true true)

/-! ## General lemmas -/

theorem str_ext {s t : String} (h : s.data = t.data) : s = t := by
  cases s; cases t; exact congrArg String.mk h

theorem strMkLen (n : Nat) (c : Char) : (String.mk (List.replicate n c)).length = n := by
  show (List.replicate n c).length = n
  simp

theorem estimate_tokens_replicate (n : Nat) (c : Char) :
    estimate_tokens (String.mk (List.replicate n c)) = n / ESTIMATED_CHARS_PER_TOKEN := by
  unfold estimate_tokens
  rw [strMkLen n c]

theorem pyJoinNl_single (a : String) : pyJoinNl [a] = a := by
  apply str_ext
  simp [pyJoinNl, List.intercalate, List.intersperse]

theorem pyJoinNl_cons (a b : String) (t : List String) :
    pyJoinNl (a :: b :: t) = a ++ "\n" ++ pyJoinNl (b :: t) := by
  apply str_ext
  simp [pyJoinNl, List.intercalate, List.intersperse, String.data_append]

theorem pyJoinNl_append (l₁ l₂ : List String) (h₁ : l₁ ≠ []) (h₂ : l₂ ≠ []) :
    pyJoinNl (l₁ ++ l₂) = pyJoinNl l₁ ++ "\n" ++ pyJoinNl l₂ := by
  induction l₁ with
  | nil => exact absurd rfl h₁
  | cons a t ih =>
    cases t with
    | nil =>
      cases l₂ with
      | nil => exact absurd rfl h₂
      | cons b u => simpa [pyJoinNl_single] using pyJoinNl_cons a b u
    | cons a2 t2 =>
      have step : (a :: a2 :: t2) ++ l₂ = a :: a2 :: (t2 ++ l₂) := rfl
      rw [step, pyJoinNl_cons, pyJoinNl_cons]
      have : (a2 :: t2) ++ l₂ = a2 :: (t2 ++ l₂) := rfl
      rw [← this, ih (by simp)]
      simp [String.append_assoc]

theorem foldl_append_parts {α β : Type} (g : α → List β) (l : List α) (init : List β) :
    l.foldl (fun acc x => acc ++ g x) init = init ++ (l.map g).flatten := by
  induction l generalizing init with
  | nil => simp
  | cons a t ih => simp [List.foldl, ih, List.append_assoc]

theorem extract_ipynb_cells_eq (cells : List NbCell) :
    extract_ipynb_cells cells =
      pyJoinNl (nb_header cells :: (cells.enum.map (fun p => cell_lines p.1 p.2)).flatten) := by
  unfold extract_ipynb_cells
  rw [foldl_append_parts (fun p : Nat × NbCell => cell_lines p.1 p.2) cells.enum []]
  simp

/-! ## Extension and dispatch lemmas -/

theorem extStart_lt {cs : List Char} {i : Nat} (h : extStart cs = some i) : i < cs.length := by
  unfold extStart at h
  exact List.mem_range.mp (List.mem_of_mem_filter (List.mem_of_mem_getLast? h))

theorem extLower_empty_or_last_b {s : String} (h : pyEndsWith s ".ipynb" = true) :
    extLower s = "" ∨ (extLower s).data.getLast? = some 'b' := by
  obtain ⟨pre, hpre⟩ : (".ipynb" : String).data <:+ s.data :=
    List.isSuffixOf_iff_suffix.mp h
  have hlast : s.data.getLast? = some 'b' := by
    rw [← hpre, List.getLast?_append]
    rfl
  cases hext : extStart s.data with
  | none =>
    left
    unfold extLower pyExt
    rw [hext]
    rfl
  | some i =>
    right
    have hi : i < s.data.length := extStart_lt hext
    have hdrop : s.data.drop i ≠ [] := by
      intro hnil
      have hlen0 := congrArg List.length hnil
      rw [List.length_drop] at hlen0
      simp only [List.length_nil] at hlen0
      omega
    unfold extLower pyExt
    rw [hext]
    show ((s.data.drop i).map Char.toLower).getLast? = some 'b'
    rw [List.getLast?_map]
    have h2 : (s.data.drop i).getLast? = some 'b' := by
      have hsplit : s.data = s.data.take i ++ s.data.drop i :=
        (List.take_append_drop i s.data).symm
      rw [hsplit, List.getLast?_append] at hlast
      obtain ⟨b, hb⟩ := Option.isSome_iff_exists.mp (List.getLast?_isSome.mpr hdrop)
      rw [hb] at hlast ⊢
      simpa using hlast
    rw [h2]
    decide

theorem not_endsWith_ipynb {s e : String} (h : extLower s = e) (hne : e ≠ "")
    (hb : e.data.getLast? ≠ some 'b') : pyEndsWith s ".ipynb" = false := by
  cases hc : pyEndsWith s ".ipynb" with
  | false => rfl
  | true =>
    rcases extLower_empty_or_last_b hc with h0 | h0
    · exact absurd (h.symm.trans h0) hne
    · exact absurd (h ▸ h0) hb

theorem process_config_dispatch (f : SrcFile) (n : Nat)
    (hext : extLower f.filename = ".yaml" ∨ extLower f.filename = ".yml" ∨
      extLower f.filename = ".toml")
    (hn : f.size = some n) (hceil : n ≤ MAX_FILE_SIZE_CEIL) :
    process_file_content f = some (config_content f) := by
  have hny : pyEndsWith f.filename ".ipynb" = false := by
    rcases hext with h | h | h
    · exact not_endsWith_ipynb h (by decide) (by decide)
    · exact not_endsWith_ipynb h (by decide) (by decide)
    · exact not_endsWith_ipynb h (by decide) (by decide)
  have hn2 : ¬(n > MAX_FILE_SIZE_CEIL) := by omega
  simp only [process_file_content]
  rw [hn]
  rcases hext with h | h | h <;> rw [h] <;> simp [hny, hn2]

theorem config_content_of_small (f : SrcFile) (c : String) (hc : f.content = some c)
    (hlen : ¬(c.length > MAX_FILE_SIZE_FULL)) : config_content f = c := by
  unfold config_content
  rw [hc]
  simp [hlen]

theorem config_content_of_large {f : SrcFile} {c : String} (hc : f.content = some c)
    (hlen : c.length > MAX_FILE_SIZE_FULL) :
    config_content f =
      pyJoinNl ((pySplitNl c).take MAX_LINES_PREVIEW) ++ "\n\n... [" ++
        toString (((pySplitNl c).length : Int) - (MAX_LINES_PREVIEW : Int)) ++ " more lines]" := by
  unfold config_content
  rw [hc]
  simp [hlen]

/-! ## C1 -/

/-- C1: the spec says the footer's estimated token count is the total
emitted character count (`total_chars`) divided by the constant 4. The
code (line 681) instead computes
`estimate_tokens(str(file_stats['total_chars']))`, dividing the number
of decimal digits of the counter by 4: with `total_chars = 100000` the
footer prints `~1`, while the claimed value `100000 / 4` — which is also
what `estimate_tokens` yields on an actual 100000-character text — is
25000. -/
theorem C1_footer_token_estimate :
    footer_estimated_tokens 100000 = 1 ∧
      100000 / ESTIMATED_CHARS_PER_TOKEN = 25000 ∧
      estimate_tokens (String.mk (List.replicate 100000 'a')) = 25000 := by
  refine ⟨by decide, by decide, ?_⟩
  rw [estimate_tokens_replicate 100000 'a']
  decide

/-! ## C2 -/

/-- C2 counterexample: a markdown cell of exactly 500 characters is not
"longer than 500 characters", yet `extract_ipynb_code` omits it — the
guard is `len(source) < 500` — so a notebook holding only that cell
renders as the bare header line. -/
theorem C2_markdown_500_counterexample :
    (String.mk (List.replicate 500 'a')).length ≤ 500 ∧
      extract_ipynb_cells [⟨"markdown", String.mk (List.replicate 500 'a')⟩] =
        "# Jupyter Notebook: 0 code cells, 1 markdown cells\n" := by
  have hlen : (String.mk (List.replicate 500 'a')).length = 500 := strMkLen 500 'a'
  refine ⟨by rw [hlen], ?_⟩
  have h1 : cell_lines 0 ⟨"markdown", String.mk (List.replicate 500 'a')⟩ = [] := by
    unfold cell_lines
    rw [if_neg (by simp), if_neg (by rw [hlen]; simp)]
  rw [extract_ipynb_cells_eq]
  have henum : ([⟨"markdown", String.mk (List.replicate 500 'a')⟩] : List NbCell).enum =
      [(0, ⟨"markdown", String.mk (List.replicate 500 'a')⟩)] := rfl
  rw [henum]
  simp only [List.map_cons, List.map_nil, List.flatten_cons, List.flatten_nil]
  rw [h1]
  have hh : nb_header [(⟨"markdown", String.mk (List.replicate 500 'a')⟩ : NbCell)] =
      "# Jupyter Notebook: 0 code cells, 1 markdown cells\n" := by
    simp [nb_header, List.filter]
    decide
  rw [hh]
  simp [pyJoinNl_single]

/-- C2 (amended): markdown cells are omitted exactly when their source
has at least 500 characters (not "more than 500"); shorter markdown
cells are emitted with every line `# `-prefixed after a marker line;
code cells of any length are emitted fully with no per-line prefix. In
particular a notebook with a long markdown cell and a code cell renders
the code cell fully and the markdown cell not at all. -/
theorem C2_notebook_cell_rendering (s t u : String)
    (hs : 500 ≤ s.length) (hu : u.length < 500) :
    extract_ipynb_cells [⟨"markdown", s⟩, ⟨"code", t⟩] =
      "# Jupyter Notebook: 1 code cells, 1 markdown cells\n\n\n# --- Cell 2 [Code] ---\n" ++ t ∧
    extract_ipynb_cells [⟨"markdown", u⟩, ⟨"code", t⟩] =
      pyJoinNl (["# Jupyter Notebook: 1 code cells, 1 markdown cells\n",
          "\n# --- Cell 1 [Markdown] ---"] ++
        (pySplitNl u).map (fun line => "# " ++ line) ++
        ["\n# --- Cell 2 [Code] ---", t]) := by
  have hcode : cell_lines 1 ⟨"code", t⟩ = ["\n# --- Cell 2 [Code] ---", t] := by
    unfold cell_lines
    rw [if_pos rfl]
    simp
    decide
  constructor
  · have h1 : cell_lines 0 ⟨"markdown", s⟩ = [] := by
      unfold cell_lines
      rw [if_neg (by simp), if_neg (by simp; omega)]
    rw [extract_ipynb_cells_eq]
    have henum : ([⟨"markdown", s⟩, ⟨"code", t⟩] : List NbCell).enum =
        [(0, ⟨"markdown", s⟩), (1, ⟨"code", t⟩)] := rfl
    rw [henum]
    simp only [List.map_cons, List.map_nil, List.flatten_cons, List.flatten_nil]
    rw [h1, hcode]
    have hh : nb_header [(⟨"markdown", s⟩ : NbCell), ⟨"code", t⟩] =
        "# Jupyter Notebook: 1 code cells, 1 markdown cells\n" := by
      simp [nb_header, List.filter]
      decide
    rw [hh]
    simp only [List.nil_append, List.append_nil]
    rw [pyJoinNl_cons, pyJoinNl_cons, pyJoinNl_single]
    rw [← String.append_assoc, ← String.append_assoc]
    congr 1
  · have h1 : cell_lines 0 ⟨"markdown", u⟩ =
        "\n# --- Cell 1 [Markdown] ---" :: (pySplitNl u).map (fun line => "# " ++ line) := by
      unfold cell_lines
      rw [if_neg (by simp), if_pos ⟨rfl, hu⟩]
      simp
      decide
    rw [extract_ipynb_cells_eq]
    have henum : ([⟨"markdown", u⟩, ⟨"code", t⟩] : List NbCell).enum =
        [(0, ⟨"markdown", u⟩), (1, ⟨"code", t⟩)] := rfl
    rw [henum]
    simp only [List.map_cons, List.map_nil, List.flatten_cons, List.flatten_nil]
    rw [h1, hcode]
    have hh : nb_header [(⟨"markdown", u⟩ : NbCell), ⟨"code", t⟩] =
        "# Jupyter Notebook: 1 code cells, 1 markdown cells\n" := by
      simp [nb_header, List.filter]
      decide
    rw [hh]
    simp [List.append_assoc]

/-- C2 witness: the amended theorem applied to a 500-character markdown
source, an included short markdown source, and a concrete code source. -/
theorem C2_notebook_cell_rendering_witness :
    extract_ipynb_cells [⟨"markdown", String.mk (List.replicate 500 'a')⟩, ⟨"code", "y = 1"⟩] =
      "# Jupyter Notebook: 1 code cells, 1 markdown cells\n\n\n# --- Cell 2 [Code] ---\n" ++
        "y = 1" := by
  have h := C2_notebook_cell_rendering (String.mk (List.replicate 500 'a')) "y = 1" "hi"
    (by rw [strMkLen 500 'a']) (by decide)
  exact h.1

/-! ## C3 -/

/-- C3 counterexample: a `.yaml` file of exactly 20,000 bytes holding
20,000 ASCII characters is not below the 20,000-byte threshold, so the
claim mandates the truncated first-100-lines form — but the code's guard
is `len(content) > 20000`, which fails, so the full content is
returned. -/
theorem C3_yaml_20000_counterexample :
    process_file_content
        { filename := "a.yaml", relPath := "a.yaml", size := some 20000,
          content := some (String.mk (List.replicate 20000 'a')), readErr := "",
          jsonData := none, parseErr := "", nbCells := none, nbErr := "" } =
      some (String.mk (List.replicate 20000 'a')) ∧
    ¬(20000 < MAX_FILE_SIZE_FULL) := by
  constructor
  · have h1 := process_config_dispatch
      { filename := "a.yaml", relPath := "a.yaml", size := some 20000,
        content := some (String.mk (List.replicate 20000 'a')), readErr := "",
        jsonData := none, parseErr := "", nbCells := none, nbErr := "" }
      20000 (Or.inl (by decide)) rfl (by decide)
    have h2 := config_content_of_small
      { filename := "a.yaml", relPath := "a.yaml", size := some 20000,
        content := some (String.mk (List.replicate 20000 'a')), readErr := "",
        jsonData := none, parseErr := "", nbCells := none, nbErr := "" }
      (String.mk (List.replicate 20000 'a')) rfl
      (by rw [strMkLen]; decide)
    rw [h1, h2]
  · decide

/-- C3 (amended): for a readable `.yaml`/`.yml`/`.toml` file within the
200,000-byte ceiling, extraction returns the full decoded content
exactly when it has at most 20,000 characters; when it has more than
20,000 characters it returns the first 100 lines joined by newlines
followed by a note whose count is the number of split lines minus 100.
The gate is on the decoded character count (non-strict at 20,000), not
on the byte size. -/
theorem C3_config_extraction (f : SrcFile) (n : Nat) (c : String)
    (hext : extLower f.filename = ".yaml" ∨ extLower f.filename = ".yml" ∨
      extLower f.filename = ".toml")
    (hn : f.size = some n) (hceil : n ≤ MAX_FILE_SIZE_CEIL) (hc : f.content = some c) :
    (c.length ≤ MAX_FILE_SIZE_FULL → process_file_content f = some c) ∧
    (MAX_FILE_SIZE_FULL < c.length →
      process_file_content f =
        some (pyJoinNl ((pySplitNl c).take MAX_LINES_PREVIEW) ++ "\n\n... [" ++
          toString (((pySplitNl c).length : Int) - (MAX_LINES_PREVIEW : Int)) ++
          " more lines]")) := by
  constructor
  · intro hsmall
    rw [process_config_dispatch f n hext hn hceil,
      config_content_of_small f c hc (by omega)]
  · intro hlarge
    rw [process_config_dispatch f n hext hn hceil,
      config_content_of_large hc (by omega)]

/-- C3 witness: the amended theorem applied to a small and a large
concrete `.yaml` file. -/
theorem C3_config_extraction_witness :
    process_file_content
        { filename := "c.yaml", relPath := "c.yaml", size := some 4,
          content := some "k: v", readErr := "", jsonData := none, parseErr := "",
          nbCells := none, nbErr := "" } = some "k: v" := by
  exact (C3_config_extraction _ 4 "k: v" (Or.inl (by decide)) rfl (by decide) rfl).1
    (by decide)

/-! ## C7 -/

theorem process_json_dispatch (f : SrcFile) (n : Nat)
    (hext : extLower f.filename = ".json") (hn : f.size = some n)
    (hceil : n ≤ MAX_FILE_SIZE_CEIL) :
    process_file_content f = some (json_content f n) := by
  have hny : pyEndsWith f.filename ".ipynb" = false :=
    not_endsWith_ipynb hext (by decide) (by decide)
  have hn2 : ¬(n > MAX_FILE_SIZE_CEIL) := by omega
  simp only [process_file_content]
  rw [hn, hext]
  simp [hny, hn2]

/-- C7: a readable `.json` file whose byte size is below 5000 is emitted
verbatim: `process_file_content` returns exactly the decoded content
string. -/
theorem C7_small_json_verbatim (f : SrcFile) (n : Nat) (c : String)
    (hext : extLower f.filename = ".json") (hn : f.size = some n) (hlt : n < 5000)
    (hc : f.content = some c) :
    process_file_content f = some c := by
  rw [process_json_dispatch f n hext hn (by unfold MAX_FILE_SIZE_CEIL; omega)]
  unfold json_content
  rw [hc]
  simp [hlt]

/-- C7 witness: a concrete 14-byte `.json` file is reproduced verbatim. -/
theorem C7_small_json_verbatim_witness :
    process_file_content
        { filename := "a.json", relPath := "a.json", size := some 14,
          content := some "\x7b\"k\": [1, 2]\x7d", readErr := "", jsonData := none,
          parseErr := "", nbCells := none, nbErr := "" } =
      some "\x7b\"k\": [1, 2]\x7d" := by
  exact C7_small_json_verbatim _ 14 _ (by decide) rfl (by decide) rfl

/-! ## C10 -/

/-- The error-string prefix test the caller performs never fires on a
JSON parse-error line: `"[JSON parse error: …]"` does not start with
`"[Error"`. -/
theorem json_parse_error_not_error (x : String) :
    pyStartsWith ("[JSON parse error: " ++ x ++ "]") "[Error" = false := by
  unfold pyStartsWith
  rfl

theorem process_files_stats (files : List SrcFile) (init : RunStats × String) :
    (files.foldl process_files_step init).1.errors =
      init.1.errors + files.countP (fun f =>
        match process_file_content f with
        | some c => pyStartsWith c "[Error"
        | none => false) ∧
    (files.foldl process_files_step init).1.processed =
      init.1.processed + files.countP (fun f => (process_file_content f).isSome) ∧
    (files.foldl process_files_step init).1.skipped =
      init.1.skipped + files.countP (fun f => (process_file_content f).isNone) := by
  induction files generalizing init with
  | nil => simp
  | cons f t ih =>
    obtain ⟨e, p, s⟩ := ih (process_files_step init f)
    simp only [List.foldl_cons, List.countP_cons] at *
    refine ⟨?_, ?_, ?_⟩
    · rw [e]
      cases hf : process_file_content f with
      | none => simp [process_files_step, hf]
      | some c =>
        by_cases hsw : pyStartsWith c "[Error"
        · simp [process_files_step, hf, hsw]
          omega
        · simp [process_files_step, hf, hsw]
    · rw [p]
      cases hf : process_file_content f with
      | none => simp [process_files_step, hf]
      | some c =>
        by_cases hsw : pyStartsWith c "[Error"
        · simp [process_files_step, hf, hsw]
          omega
        · simp [process_files_step, hf, hsw]
          omega
    · rw [s]
      cases hf : process_file_content f with
      | none =>
        simp [process_files_step, hf]
        omega
      | some c =>
        by_cases hsw : pyStartsWith c "[Error"
        · simp [process_files_step, hf, hsw]
        · simp [process_files_step, hf, hsw]

theorem json_content_parse_error (f : SrcFile) (n : Nat) (c : String)
    (h5 : ¬(n < 5000)) (hc : f.content = some c) (hj : f.jsonData = none) :
    json_content f n = "[JSON parse error: " ++ f.parseErr ++ "]" := by
  unfold json_content
  rw [hc, hj]
  simp [h5]

/-- C10: the errors counter counts exactly the files whose extracted
content starts with `"[Error"`; a `.json` file whose parse fails yields
`"[JSON parse error: …]"`, which does not carry that prefix, so it is
counted as processed and never as an error. -/
theorem C10_error_counter :
    (∀ files : List SrcFile,
      (process_files files).1.errors = files.countP (fun f =>
        match process_file_content f with
        | some c => pyStartsWith c "[Error"
        | none => false)) ∧
    (∀ (f : SrcFile) (n : Nat) (c : String),
      extLower f.filename = ".json" → f.size = some n → 5000 ≤ n →
        n ≤ MAX_FILE_SIZE_CEIL → f.content = some c → f.jsonData = none →
        process_file_content f = some ("[JSON parse error: " ++ f.parseErr ++ "]") ∧
        pyStartsWith ("[JSON parse error: " ++ f.parseErr ++ "]") "[Error" = false ∧
        (process_files [f]).1.processed = 1 ∧
        (process_files [f]).1.errors = 0) := by
  constructor
  · intro files
    simpa [process_files] using (process_files_stats files (⟨0, 0, 0, 0⟩, "")).1
  · intro f n c hext hn h5 hceil hc hj
    have hpf : process_file_content f = some ("[JSON parse error: " ++ f.parseErr ++ "]") := by
      rw [process_json_dispatch f n hext hn hceil,
        json_content_parse_error f n c (by omega) hc hj]
    refine ⟨hpf, json_parse_error_not_error f.parseErr, ?_, ?_⟩
    · have := (process_files_stats [f] (⟨0, 0, 0, 0⟩, "")).2.1
      simp only [process_files, this, List.countP_cons, List.countP_nil, hpf]
      simp
    · have := (process_files_stats [f] (⟨0, 0, 0, 0⟩, "")).1
      simp only [process_files, this, List.countP_cons, List.countP_nil, hpf]
      simp [json_parse_error_not_error f.parseErr]

/-- C10 witness: the theorem applied to a concrete unparsable 6000-byte
`.json` file and a one-file run. -/
theorem C10_error_counter_witness :
    process_file_content
        { filename := "big.json", relPath := "big.json", size := some 6000,
          content := some "not json", readErr := "", jsonData := none,
          parseErr := "Expecting value", nbCells := none, nbErr := "" } =
      some ("[JSON parse error: " ++ "Expecting value" ++ "]") := by
  exact (C10_error_counter.2
    { filename := "big.json", relPath := "big.json", size := some 6000,
      content := some "not json", readErr := "", jsonData := none,
      parseErr := "Expecting value", nbCells := none, nbErr := "" }
    6000 "not json" (by decide) rfl (by decide) (by decide) rfl rfl).1

/-! ## C4 -/

/-- The exact condition under which `process_file_content` returns the
no-content sentinel `None`: the size read fails, or the file (within the
size ceiling) matches none of the recognized extraction rules. -/
theorem process_none_iff (f : SrcFile) :
    process_file_content f = none ↔
      f.size = none ∨ ∃ n, f.size = some n ∧ n ≤ MAX_FILE_SIZE_CEIL ∧
        pyEndsWith f.filename ".ipynb" = false ∧
        extLower f.filename ≠ ".json" ∧ extLower f.filename ≠ ".jsonl" ∧
        ¬(extLower f.filename = ".yaml" ∨ extLower f.filename = ".yml" ∨
          extLower f.filename = ".toml") ∧
        ¬(extLower f.filename ∈ TEXT_EXTENSIONS ∨ f.filename ∈ PRIORITY_FILES ∨
          extLower f.filename = "") := by
  cases hs : f.size with
  | none => simp [process_file_content, hs]
  | some n =>
    simp only [process_file_content, hs]
    by_cases h1 : n > MAX_FILE_SIZE_CEIL
    · simp [h1]
    · rw [if_neg h1]
      cases h2 : pyEndsWith f.filename ".ipynb" with
      | true => simp [h2, h1]
      | false =>
        simp only [Bool.false_eq_true, if_false]
        by_cases h3 : extLower f.filename = ".json"
        · simp [h3]
        · rw [if_neg h3]
          by_cases h4 : extLower f.filename = ".jsonl"
          · simp [h4]
          · rw [if_neg h4]
            by_cases h5 : extLower f.filename = ".yaml" ∨ extLower f.filename = ".yml" ∨
              extLower f.filename = ".toml"
            · simp [h5, h3, h4]
            · rw [if_neg h5]
              by_cases h6 : extLower f.filename ∈ TEXT_EXTENSIONS ∨
                f.filename ∈ PRIORITY_FILES ∨ extLower f.filename = ""
              · simp [h6, h3, h4, h5]
              · simp [h6, h3, h4, h5, h1, h2]
                omega

/-- C4 counterexample: a readable 10-byte file named `foo.xyz` — its
extension is not in the skip set, and its size is readable — still gets
the `None` sentinel (and is therefore counted as skipped), refuting the
claimed "if and only if". -/
theorem C4_unknown_ext_counterexample :
    process_file_content
        { filename := "foo.xyz", relPath := "foo.xyz", size := some 10,
          content := some "0123456789", readErr := "", jsonData := none,
          parseErr := "", nbCells := none, nbErr := "" } = none ∧
    (".xyz" : String) ∉ EXTENSIONS_TO_SKIP ∧
    extLower "foo.xyz" = ".xyz" ∧
    (some 10 : Option Nat) ≠ none := by
  refine ⟨?_, by decide, by decide, by decide⟩
  decide

/-- C4 (amended): a file above the 200,000-byte ceiling yields the
single `[File too large…]` line and is counted as processed, never
skipped; the skipped counter counts exactly the files for which
extraction returns `None`, and extraction returns `None` exactly when
the size cannot be read or the file (within the ceiling) is recognized
by no rule — not a notebook, not `.json`/`.jsonl`/`.yaml`/`.yml`/`.toml`,
not a known text extension, not a priority filename, and not
extensionless. Skip-set extensions are among the unrecognized ones, but
so are other unknown extensions. -/
theorem C4_skip_accounting :
    (∀ (f : SrcFile) (n : Nat), f.size = some n → MAX_FILE_SIZE_CEIL < n →
      process_file_content f = some ("[File too large: " ++ format_size n ++ " - skipped]")) ∧
    (∀ files : List SrcFile,
      (process_files files).1.skipped =
        files.countP (fun f => (process_file_content f).isNone) ∧
      (process_files files).1.processed =
        files.countP (fun f => (process_file_content f).isSome)) ∧
    (∀ f : SrcFile, process_file_content f = none ↔
      f.size = none ∨ ∃ n, f.size = some n ∧ n ≤ MAX_FILE_SIZE_CEIL ∧
        pyEndsWith f.filename ".ipynb" = false ∧
        extLower f.filename ≠ ".json" ∧ extLower f.filename ≠ ".jsonl" ∧
        ¬(extLower f.filename = ".yaml" ∨ extLower f.filename = ".yml" ∨
          extLower f.filename = ".toml") ∧
        ¬(extLower f.filename ∈ TEXT_EXTENSIONS ∨ f.filename ∈ PRIORITY_FILES ∨
          extLower f.filename = "")) := by
  refine ⟨?_, ?_, process_none_iff⟩
  · intro f n hn hbig
    simp only [process_file_content]
    rw [hn]
    simp [hbig]
  · intro files
    exact ⟨by simpa [process_files] using (process_files_stats files (⟨0, 0, 0, 0⟩, "")).2.2,
      by simpa [process_files] using (process_files_stats files (⟨0, 0, 0, 0⟩, "")).2.1⟩

/-- C4 witness: the amended theorem applied to a concrete oversized file
and a concrete two-file run (one skipped `.xyz`, one processed `.py`). -/
theorem C4_skip_accounting_witness :
    process_file_content
        { filename := "huge.bin2", relPath := "huge.bin2", size := some 300000,
          content := none, readErr := "", jsonData := none, parseErr := "",
          nbCells := none, nbErr := "" } =
      some ("[File too large: " ++ format_size 300000 ++ " - skipped]") ∧
    (process_files
        [{ filename := "foo.xyz", relPath := "foo.xyz", size := some 10,
           content := some "0123456789", readErr := "", jsonData := none,
           parseErr := "", nbCells := none, nbErr := "" },
         { filename := "m.py", relPath := "m.py", size := some 6,
           content := some "x = 1\n", readErr := "", jsonData := none,
           parseErr := "", nbCells := none, nbErr := "" }]).1.skipped = 1 := by
  constructor
  · exact C4_skip_accounting.1
      { filename := "huge.bin2", relPath := "huge.bin2", size := some 300000,
        content := none, readErr := "", jsonData := none, parseErr := "",
        nbCells := none, nbErr := "" } 300000 rfl (by decide)
  · rw [(C4_skip_accounting.2.1 _).1]
    decide

/-! ## C8 -/

/-- C8: shape of the bounded JSON summary as called by
`process_file_content` (`max_depth = 4`, `max_items = 5`): at the cutoff
depth objects and arrays collapse to count-only placeholders; above it,
strings longer than 60 characters are shown double-quoted and truncated
to exactly 60 characters with an ellipsis while shorter strings are
shown quoted by `repr`; arrays of at most 3 scalars render inline as a
literal list; other nonempty arrays and objects render at most
`min 5 length` recursively summarized items/pairs plus an elision note
exactly when more than 5 exist. -/
theorem C8_json_summary :
    (∀ (kvs : List (String × JsonVal)) (ind : String) (d mi : Nat), 4 ≤ d →
      summarize_json_structure (.jobj kvs) 4 d mi ind =
        "\x7b...\x7d (" ++ toString kvs.length ++ " keys)") ∧
    (∀ (xs : List JsonVal) (ind : String) (d mi : Nat), 4 ≤ d →
      summarize_json_structure (.jarr xs) 4 d mi ind =
        "[...] (" ++ toString xs.length ++ " items)") ∧
    (∀ (s : String) (ind : String) (d : Nat), d < 4 → 60 < s.length →
      summarize_json_structure (.jstr s) 4 d 5 ind = "\"" ++ pyTake 60 s ++ "...\"" ∧
        (pyTake 60 s).length = 60) ∧
    (∀ (s : String) (ind : String) (d : Nat), d < 4 → s.length ≤ 60 →
      summarize_json_structure (.jstr s) 4 d 5 ind = pyReprStr s) ∧
    (∀ (xs : List JsonVal) (ind : String) (d : Nat), d < 4 → xs ≠ [] →
      xs.length ≤ 3 → xs.all isScalar = true →
      summarize_json_structure (.jarr xs) 4 d 5 ind = pyReprList xs) ∧
    (∀ (kvs : List (String × JsonVal)) (ind : String) (d : Nat), d < 4 → kvs ≠ [] →
      summarize_json_structure (.jobj kvs) 4 d 5 ind =
        pyJoinNl (("\x7b" :: (kvs.take 5).map (fun kv =>
            ind ++ "  " ++ "\"" ++ kv.1 ++ "\": " ++
              summarize_json_structure kv.2 4 (d + 1) 5 (ind ++ "  ") ++ ",")) ++
          (if kvs.length > 5 then
            [ind ++ "  " ++ "... +" ++ toString (kvs.length - 5) ++ " more keys"]
          else []) ++ [ind ++ "\x7d"]) ∧
        (kvs.take 5).length = min 5 kvs.length) ∧
    (∀ (xs : List JsonVal) (ind : String) (d : Nat), d < 4 → xs ≠ [] →
      ¬(xs.length ≤ 3 ∧ xs.all isScalar = true) →
      summarize_json_structure (.jarr xs) 4 d 5 ind =
        pyJoinNl ((("[ // " ++ toString xs.length ++ " items") :: (xs.take 5).map (fun item =>
            ind ++ "  " ++
              summarize_json_structure item 4 (d + 1) 5 (ind ++ "  ") ++ ",")) ++
          (if xs.length > 5 then
            [ind ++ "  " ++ "... +" ++ toString (xs.length - 5) ++ " more items"]
          else []) ++ [ind ++ "]"]) ∧
        (xs.take 5).length = min 5 xs.length) := by
  refine ⟨?_, ?_, ?_, ?_, ?_, ?_, ?_⟩
  · intro kvs ind d mi hd
    unfold summarize_json_structure
    rw [dif_pos (by omega)]
  · intro xs ind d mi hd
    unfold summarize_json_structure
    rw [dif_pos (by omega)]
  · intro s ind d hd hlong
    constructor
    · unfold summarize_json_structure
      rw [dif_neg (by omega)]
      simp [hlong]
    · show (s.data.take 60).length = 60
      rw [List.length_take]
      have : 60 < s.data.length := hlong
      omega
  · intro s ind d hd hshort
    unfold summarize_json_structure
    rw [dif_neg (by omega)]
    simp
    omega
  · intro xs ind d hd hne h3 hsc
    unfold summarize_json_structure
    rw [dif_neg (by omega)]
    simp [hne, h3, hsc]
  · intro kvs ind d hd hne
    refine ⟨?_, by simp [List.length_take]⟩
    conv_lhs => unfold summarize_json_structure
    rw [dif_neg (show ¬(d ≥ 4) by omega)]
    simp only []
    rw [if_neg (show ¬(kvs.isEmpty = true) by simpa using hne)]
    by_cases h5 : kvs.length > 5
    · simp only [if_pos h5]
    · simp only [if_neg h5]
      simp
  · intro xs ind d hd hne hni
    refine ⟨?_, by simp [List.length_take]⟩
    conv_lhs => unfold summarize_json_structure
    rw [dif_neg (show ¬(d ≥ 4) by omega)]
    simp only []
    rw [if_neg (show ¬(xs.isEmpty = true) by simpa using hne), if_neg hni]
    by_cases h5 : xs.length > 5
    · simp only [if_pos h5]
    · simp only [if_neg h5]
      simp

/-- C8 witness: the summary theorem applied at concrete inputs — a
70-character string above the cutoff and an object at the cutoff
depth. -/
theorem C8_json_summary_witness :
    summarize_json_structure (.jstr (String.mk (List.replicate 70 'x'))) 4 0 5 "" =
      "\"" ++ pyTake 60 (String.mk (List.replicate 70 'x')) ++ "...\"" ∧
    summarize_json_structure (.jobj [("a", .jnull)]) 4 4 5 "" =
      "\x7b...\x7d (" ++ toString (1 : Nat) ++ " keys)" := by
  constructor
  · exact (C8_json_summary.2.2.1 (String.mk (List.replicate 70 'x')) "" 0 (by decide)
      (by rw [strMkLen]; decide)).1
  · simpa using C8_json_summary.1 [("a", JsonVal.jnull)] "" 4 5 (by decide)

/-! ## C5 -/

theorem walk_dir_summarized (cfg : TreeCfg) (name : String) (cs : List FSNode)
    (pre : String) (isLast isRoot : Bool)
    (h : cfg.summarize_dirs.contains name = true) :
    walk_dir cfg (.dir name cs) pre isLast isRoot =
      (if isRoot then name ++ "/"
       else pre ++ (if isLast then lastConn else midConn) ++ name ++ "/") ::
      (if (childFiles cfg (sortByName cs)).isEmpty then []
       else [(if isRoot then "" else pre ++ (if isLast then "    " else "│   ")) ++
          dir_summary_line (childFiles cfg (sortByName cs))]) := by
  conv_lhs => unfold walk_dir
  simp only [h, if_true]

/-- C5: a directory whose base name is in the summarize set renders at
most its own header plus one aggregate summary line — never any
individual file line and never any subdirectory line (the output is
independent of its children's subtrees) — and renders no summary line at
all when it contains no (retained) files. -/
theorem C5_summarized_dir (cfg : TreeCfg) (name : String) (cs : List FSNode)
    (pre : String) (isLast isRoot : Bool)
    (h : cfg.summarize_dirs.contains name = true) :
    (walk_dir cfg (.dir name cs) pre isLast isRoot).length ≤ 2 ∧
    (childFiles cfg (sortByName cs) = [] →
      walk_dir cfg (.dir name cs) pre isLast isRoot =
        [if isRoot then name ++ "/"
         else pre ++ (if isLast then lastConn else midConn) ++ name ++ "/"]) ∧
    (childFiles cfg (sortByName cs) ≠ [] →
      walk_dir cfg (.dir name cs) pre isLast isRoot =
        [(if isRoot then name ++ "/"
          else pre ++ (if isLast then lastConn else midConn) ++ name ++ "/"),
         (if isRoot then "" else pre ++ (if isLast then "    " else "│   ")) ++
           dir_summary_line (childFiles cfg (sortByName cs))]) := by
  rw [walk_dir_summarized cfg name cs pre isLast isRoot h]
  by_cases hf : childFiles cfg (sortByName cs) = []
  · refine ⟨by simp [hf], fun _ => by simp [hf], fun hne => absurd hf hne⟩
  · refine ⟨by simp [hf], fun heq => absurd heq hf, fun _ => by simp [hf]⟩

unseal List.merge List.mergeSort in
/-- C5 witness: a concrete summarized directory with two files and a
subdirectory renders exactly its header and one aggregate line; empty, it
renders only its header. -/
theorem C5_summarized_dir_witness :
    walk_dir
        { exclude_dirs := [], summarize_dirs := ["data"], gitignore_patterns := [] }
        (.dir "data" [.file "b.csv" 10, .dir "sub" [.file "x.csv" 5], .file "a.csv" 20])
        "" true false =
      ["└── data/",
        "    " ++ dir_summary_line [("a.csv", 20), ("b.csv", 10)]] ∧
    walk_dir
        { exclude_dirs := [], summarize_dirs := ["data"], gitignore_patterns := [] }
        (.dir "data" [.dir "sub" [.file "x.csv" 5]]) "" true false =
      ["└── data/"] := by
  constructor
  · have h := (C5_summarized_dir
      { exclude_dirs := [], summarize_dirs := ["data"], gitignore_patterns := [] }
      "data" [.file "b.csv" 10, .dir "sub" [.file "x.csv" 5], .file "a.csv" 20]
      "" true false (by decide)).2.2
    rw [h (by decide)]
    decide
  · have h := (C5_summarized_dir
      { exclude_dirs := [], summarize_dirs := ["data"], gitignore_patterns := [] }
      "data" [.dir "sub" [.file "x.csv" 5]] "" true false (by decide)).2.1
    rw [h (by decide)]
    decide

/-! ## C6 -/

/-- C6: the file block of a non-summarized directory renders exactly
`min 30 |showable|` file lines — each `newPre ++ connector ++ name ++
" (size)"` with the connector chosen by comparing the line's entry index
with the directory's total entry count — followed by exactly one
`... and N more files` line (at position 30, with `N = |showable| - 30`)
iff more than 30 show-able files exist, followed by exactly one grouped
`[skipped: …]` line (last, listing the top-5 skipped extensions with
counts) iff any file was skipped by extension. -/
theorem C6_files_section (newPre : String) (showable skipped : List (String × Nat)) (T : Nat) :
    (files_section newPre showable skipped T).1.length =
      min MAX_FILES_PER_DIR showable.length +
        (if MAX_FILES_PER_DIR < showable.length then 1 else 0) +
        (if skipped.isEmpty then 0 else 1) ∧
    (∀ i : Nat, i < min MAX_FILES_PER_DIR showable.length →
      ∃ p : String × Nat, showable.get? i = some p ∧
        (files_section newPre showable skipped T).1.get? i =
          some (newPre ++ (if i + 1 = T then lastConn else midConn) ++ p.1 ++
            " (" ++ format_size p.2 ++ ")")) ∧
    (MAX_FILES_PER_DIR < showable.length →
      (files_section newPre showable skipped T).1.get? MAX_FILES_PER_DIR =
        some (newPre ++ (if MAX_FILES_PER_DIR + 1 = T then lastConn else midConn) ++
          "... and " ++ toString (showable.length - MAX_FILES_PER_DIR) ++ " more files")) ∧
    (skipped ≠ [] →
      (files_section newPre showable skipped T).1.getLast? =
        some (newPre ++
          (if idx_after_more showable + 1 = T then lastConn else midConn) ++
          "[skipped: " ++ skip_summary skipped ++ "]")) := by
  have hfl_len : ∀ T' : Nat, (file_lines newPre showable T').length =
      min MAX_FILES_PER_DIR showable.length := by
    intro T'
    unfold file_lines
    simp [List.enum_length, List.length_take]
  refine ⟨?_, ?_, ?_, ?_⟩
  · show (file_lines newPre showable T ++ more_lines newPre showable T ++
      skip_lines newPre showable skipped T).length = _
    rw [List.length_append, List.length_append, hfl_len]
    unfold more_lines skip_lines
    by_cases hmore : showable.length > MAX_FILES_PER_DIR <;>
      by_cases hskip : skipped.isEmpty <;>
        simp [hmore, hskip]
  · intro i hi
    have hi30 : i < MAX_FILES_PER_DIR := lt_of_lt_of_le hi (Nat.min_le_left _ _)
    have hilen : i < showable.length := lt_of_lt_of_le hi (Nat.min_le_right _ _)
    refine ⟨showable.get ⟨i, hilen⟩, List.get?_eq_get hilen, ?_⟩
    have hfl : i < (file_lines newPre showable T).length := by
      rw [hfl_len]
      omega
    have h1 : i < (file_lines newPre showable T ++ more_lines newPre showable T).length := by
      rw [List.length_append]
      omega
    show (file_lines newPre showable T ++ more_lines newPre showable T ++
      skip_lines newPre showable skipped T).get? i = _
    rw [List.get?_append h1, List.get?_append hfl]
    unfold file_lines
    rw [List.get?_map, List.enum_get?, List.get?_take hi30, List.get?_eq_get hilen]
    rfl
  · intro hmore
    have hfl30 : (file_lines newPre showable T).length = MAX_FILES_PER_DIR := by
      rw [hfl_len]
      omega
    have hml : more_lines newPre showable T =
        [newPre ++ (if MAX_FILES_PER_DIR + 1 = T then lastConn else midConn) ++
          "... and " ++ toString (showable.length - MAX_FILES_PER_DIR) ++ " more files"] := by
      unfold more_lines
      rw [if_pos hmore]
      have : (showable.take MAX_FILES_PER_DIR).length = MAX_FILES_PER_DIR := by
        rw [List.length_take]
        omega
      rw [this]
    have h1 : MAX_FILES_PER_DIR <
        (file_lines newPre showable T ++ more_lines newPre showable T).length := by
      rw [List.length_append, hfl30, hml]
      simp
    show (file_lines newPre showable T ++ more_lines newPre showable T ++
      skip_lines newPre showable skipped T).get? MAX_FILES_PER_DIR = _
    rw [List.get?_append h1, List.get?_append_right (le_of_eq hfl30), hfl30, hml]
    simp
  · intro hskip
    have hsl : skip_lines newPre showable skipped T =
        [newPre ++ (if idx_after_more showable + 1 = T then lastConn else midConn) ++
          "[skipped: " ++ skip_summary skipped ++ "]"] := by
      unfold skip_lines
      rw [if_neg (by simpa using hskip)]
    show (file_lines newPre showable T ++ more_lines newPre showable T ++
      skip_lines newPre showable skipped T).getLast? = _
    rw [hsl, List.getLast?_concat]

/-- C6 witness: the files-section theorem applied to 31 identical
show-able files and one skipped extension: 30 file lines, one overflow
line at position 30, one final grouped skip line. -/
theorem C6_files_section_witness :
    (files_section "" (List.replicate 31 ("a.py", 3)) [(".png", 2)] 0).1.length = 32 ∧
    (files_section "" (List.replicate 31 ("a.py", 3)) [(".png", 2)] 0).1.get?
        MAX_FILES_PER_DIR =
      some ("" ++ (if MAX_FILES_PER_DIR + 1 = 0 then lastConn else midConn) ++
        "... and " ++ toString ((List.replicate 31 (("a.py", 3) : String × Nat)).length -
          MAX_FILES_PER_DIR) ++ " more files") ∧
    (files_section "" (List.replicate 31 ("a.py", 3)) [(".png", 2)] 0).1.getLast? =
      some ("" ++
        (if idx_after_more (List.replicate 31 ("a.py", 3)) + 1 = 0 then lastConn
         else midConn) ++ "[skipped: " ++ skip_summary [(".png", 2)] ++ "]") := by
  have h := C6_files_section "" (List.replicate 31 ("a.py", 3)) [(".png", 2)] 0
  refine ⟨?_, h.2.2.1 (by decide), h.2.2.2 (by decide)⟩
  rw [h.1]
  decide

/-! ## C9: determinism of the tree rendering

In the pure embedding the only nondeterminism of two runs over an
unchanged snapshot is the order in which `os.listdir` enumerates each
directory's entries. `TreeEq t₁ t₂` says the two trees are the same
snapshot presented with (recursively) permuted children lists; `NamesOk`
says each directory's entries carry distinct names, as every real
filesystem guarantees. Determinism is then: the rendering agrees on
`TreeEq`-related snapshots. -/

theorem charListLe_refl : ∀ l : List Char, charListLe l l = true := by
  intro l
  induction l with
  | nil => rfl
  | cons a t ih =>
    unfold charListLe
    rw [if_neg (by omega), if_neg (by omega)]
    exact ih

theorem charListLe_total : ∀ a b : List Char, charListLe a b = true ∨ charListLe b a = true := by
  intro a
  induction a with
  | nil => intro b; left; rfl
  | cons x xs ih =>
    intro b
    cases b with
    | nil => right; rfl
    | cons y ys =>
      unfold charListLe
      by_cases h1 : x.toNat < y.toNat
      · left
        rw [if_pos h1]
      · by_cases h2 : y.toNat < x.toNat
        · right
          rw [if_pos h2]
        · rcases ih ys with h | h
          · left
            rw [if_neg h1, if_neg h2]
            exact h
          · right
            rw [if_neg h2, if_neg h1]
            exact h

theorem charListLe_trans : ∀ a b c : List Char,
    charListLe a b = true → charListLe b c = true → charListLe a c = true := by
  intro a
  induction a with
  | nil => intro b c _ _; rfl
  | cons x xs ih =>
    intro b c hab hbc
    cases b with
    | nil => exact absurd hab (by simp [charListLe])
    | cons y ys =>
      cases c with
      | nil => exact absurd hbc (by simp [charListLe])
      | cons z zs =>
        unfold charListLe at hab hbc ⊢
        by_cases h1 : x.toNat < y.toNat <;> by_cases h2 : y.toNat < z.toNat
        · rw [if_pos (by omega)]
        · by_cases h3 : z.toNat < y.toNat
          · rw [if_neg h2, if_pos h3] at hbc
            exact absurd hbc (by simp)
          · rw [if_pos (by omega)]
        · by_cases h3 : y.toNat < x.toNat
          · rw [if_neg h1, if_pos h3] at hab
            exact absurd hab (by simp)
          · rw [if_pos (by omega)]
        · by_cases h3 : y.toNat < x.toNat
          · rw [if_neg h1, if_pos h3] at hab
            exact absurd hab (by simp)
          · by_cases h4 : z.toNat < y.toNat
            · rw [if_neg h2, if_pos h4] at hbc
              exact absurd hbc (by simp)
            · rw [if_neg h1, if_neg h3] at hab
              rw [if_neg h2, if_neg h4] at hbc
              rw [if_neg (by omega), if_neg (by omega)]
              exact ih ys zs hab hbc

theorem charListLe_antisymm : ∀ a b : List Char,
    charListLe a b = true → charListLe b a = true → a = b := by
  intro a
  induction a with
  | nil =>
    intro b _ hba
    cases b with
    | nil => rfl
    | cons y ys => exact absurd hba (by simp [charListLe])
  | cons x xs ih =>
    intro b hab hba
    cases b with
    | nil => exact absurd hab (by simp [charListLe])
    | cons y ys =>
      unfold charListLe at hab hba
      by_cases h1 : x.toNat < y.toNat
      · rw [if_neg (by omega), if_pos h1] at hba
        exact absurd hba (by simp)
      · by_cases h2 : y.toNat < x.toNat
        · rw [if_neg h1, if_pos h2] at hab
          exact absurd hab (by simp)
        · rw [if_neg h1, if_neg h2] at hab
          rw [if_neg h2, if_neg h1] at hba
          have hx : x = y := by
            apply Char.ext
            apply UInt32.ext
            have hn : x.toNat = y.toNat := by omega
            exact hn
          rw [hx, ih ys hab hba]

theorem byNameLe_total (a b : FSNode) : (byNameLe a b || byNameLe b a) = true := by
  rcases charListLe_total (nodeName a).data (nodeName b).data with h | h <;>
    simp [byNameLe, h]

theorem byNameLe_trans (a b c : FSNode) (h₁ : byNameLe a b = true) (h₂ : byNameLe b c = true) :
    byNameLe a c = true :=
  charListLe_trans _ _ _ h₁ h₂

/-- Two snapshots are the same filesystem state up to the enumeration
order of each directory's children. -/
inductive TreeEq : FSNode → FSNode → Prop where
  | file (n : String) (s : Nat) : TreeEq (.file n s) (.file n s)
  | dir (n : String) (cs₁ mid cs₂ : List FSNode) :
      List.Forall₂ TreeEq cs₁ mid → mid.Perm cs₂ → TreeEq (.dir n cs₁) (.dir n cs₂)

/-- Every directory of the snapshot lists pairwise-distinct names (true
of any real directory). -/
inductive NamesOk : FSNode → Prop where
  | file (n : String) (s : Nat) : NamesOk (.file n s)
  | dir (n : String) (cs : List FSNode) :
      (cs.map nodeName).Nodup → (∀ c ∈ cs, NamesOk c) → NamesOk (.dir n cs)

theorem TreeEq.name_eq {a b : FSNode} (h : TreeEq a b) : nodeName a = nodeName b := by
  cases h <;> rfl

theorem TreeEq.isDir_eq {a b : FSNode} (h : TreeEq a b) : isDirNode a = isDirNode b := by
  cases h <;> rfl

theorem forall₂_names_eq {l m : List FSNode} (h : List.Forall₂ TreeEq l m) :
    l.map nodeName = m.map nodeName := by
  induction h with
  | nil => rfl
  | cons hab _ ih => simp [hab.name_eq, ih]

theorem forall₂_perm_left {α β : Type} {R : α → β → Prop} :
    ∀ {l₁ l₁' : List α}, l₁.Perm l₁' → ∀ {m : List β}, List.Forall₂ R l₁ m →
      ∃ m', List.Forall₂ R l₁' m' ∧ m.Perm m' := by
  intro l₁ l₁' hp
  induction hp with
  | nil =>
    intro m hm
    cases hm
    exact ⟨[], List.Forall₂.nil, List.Perm.nil⟩
  | cons x _ ih =>
    intro m hm
    cases hm with
    | cons hx ht =>
      obtain ⟨m', hf, hperm⟩ := ih ht
      exact ⟨_ :: m', List.Forall₂.cons hx hf, List.Perm.cons _ hperm⟩
  | swap x y l =>
    intro m hm
    cases hm with
    | cons hy ht =>
      cases ht with
      | cons hx htt =>
        exact ⟨_ :: _ :: _, List.Forall₂.cons hx (List.Forall₂.cons hy htt),
          List.Perm.swap _ _ _⟩
  | trans _ _ ih₁ ih₂ =>
    intro m hm
    obtain ⟨m₁, hf₁, hp₁⟩ := ih₁ hm
    obtain ⟨m₂, hf₂, hp₂⟩ := ih₂ hf₁
    exact ⟨m₂, hf₂, hp₁.trans hp₂⟩

theorem unique_by_name : ∀ {L : List FSNode}, (L.map nodeName).Nodup →
    ∀ x ∈ L, ∀ y ∈ L, nodeName x = nodeName y → x = y := by
  intro L
  induction L with
  | nil =>
    intro _ x hx
    cases hx
  | cons a t ih =>
    intro h x hx y hy hxy
    simp only [List.map_cons, List.nodup_cons] at h
    rcases List.mem_cons.mp hx with rfl | hx' <;> rcases List.mem_cons.mp hy with rfl | hy'
    · rfl
    · exact absurd (hxy ▸ List.mem_map_of_mem nodeName hy') h.1
    · exact absurd (hxy ▸ List.mem_map_of_mem nodeName hx') h.1
    · exact ih h.2 x hx' y hy' hxy

/-- Two name-sorted lists that are permutations of each other up to
`TreeEq`, with distinct names, pair up pointwise. -/
theorem forall₂_of_sorted_perm :
    ∀ (s₁ s₂ : List FSNode),
      List.Pairwise (fun a b => byNameLe a b = true) s₁ →
      List.Pairwise (fun a b => byNameLe a b = true) s₂ →
      (s₁.map nodeName).Nodup →
      (∃ mid, List.Forall₂ TreeEq s₁ mid ∧ mid.Perm s₂) →
      List.Forall₂ TreeEq s₁ s₂ := by
  intro s₁
  induction s₁ with
  | nil =>
    rintro s₂ _ _ _ ⟨mid, hf, hp⟩
    cases hf
    rw [hp.symm.eq_nil]
    exact List.Forall₂.nil
  | cons a t ih =>
    rintro s₂ hs₁ hs₂ hnd ⟨mid, hf, hp⟩
    cases hf with
    | cons ham hft =>
      rename_i m₀ midt
      cases s₂ with
      | nil => exact absurd hp.eq_nil (by simp)
      | cons b t₂ =>
        have hnames : (a :: t).map nodeName = (m₀ :: midt).map nodeName :=
          forall₂_names_eq (List.Forall₂.cons ham hft)
        have hndmid : ((m₀ :: midt).map nodeName).Nodup := hnames ▸ hnd
        have hb_mem : b ∈ m₀ :: midt := hp.mem_iff.mpr (List.mem_cons_self b t₂)
        -- names of a and b coincide
        have hab_names : nodeName a = nodeName b := by
          have hle1 : charListLe (nodeName a).data (nodeName b).data = true := by
            have : nodeName b ∈ (a :: t).map nodeName := by
              rw [hnames]
              exact List.mem_map_of_mem nodeName hb_mem
            rcases List.mem_map.mp this with ⟨x, hx, hxname⟩
            rcases List.mem_cons.mp hx with rfl | hx'
            · rw [← hxname]
              exact charListLe_refl _
            · have := List.rel_of_pairwise_cons hs₁ hx'
              unfold byNameLe at this
              rw [← hxname]
              exact this
          have hle2 : charListLe (nodeName b).data (nodeName a).data = true := by
            have hmemnb : nodeName a ∈ (b :: t₂).map nodeName := by
              have h1 : nodeName a ∈ (m₀ :: midt).map nodeName := by
                rw [← hnames]
                exact List.mem_map_of_mem nodeName (List.mem_cons_self a t)
              have h2 : ((m₀ :: midt).map nodeName).Perm ((b :: t₂).map nodeName) :=
                hp.map nodeName
              exact h2.mem_iff.mp h1
            rcases List.mem_map.mp hmemnb with ⟨x, hx, hxname⟩
            rcases List.mem_cons.mp hx with rfl | hx'
            · rw [← hxname]
              exact charListLe_refl _
            · have := List.rel_of_pairwise_cons hs₂ hx'
              unfold byNameLe at this
              rw [← hxname]
              exact this
          exact str_ext (charListLe_antisymm _ _ hle1 hle2)
        -- the matching element of mid must be its head
        have hbm : b = m₀ := by
          apply unique_by_name hndmid b hb_mem m₀ (List.mem_cons_self m₀ midt)
          rw [← hab_names, ← ham.name_eq]
        have hperm_t : midt.Perm t₂ := by
          have : (m₀ :: midt).Perm (m₀ :: t₂) := by
            rw [hbm] at hp
            exact hp
          exact this.cons_inv
        refine List.Forall₂.cons (hbm ▸ ham) ?_
        exact ih t₂ hs₁.of_cons hs₂.of_cons
          (by simp only [List.map_cons, List.nodup_cons] at hnd; exact hnd.2)
          ⟨midt, hft, hperm_t⟩

theorem forall₂_filter {R : FSNode → FSNode → Prop} (p : FSNode → Bool)
    (hco : ∀ a b, R a b → p a = p b) :
    ∀ {l₁ l₂ : List FSNode}, List.Forall₂ R l₁ l₂ →
      List.Forall₂ R (l₁.filter p) (l₂.filter p) := by
  intro l₁ l₂ h
  induction h with
  | nil => exact List.Forall₂.nil
  | @cons a b t₁ t₂ hab ht ih =>
    by_cases hpa : p a = true
    · rw [List.filter_cons_of_pos hpa, List.filter_cons_of_pos ((hco a b hab) ▸ hpa)]
      exact List.Forall₂.cons hab ih
    · rw [List.filter_cons_of_neg (by simpa using hpa),
        List.filter_cons_of_neg (by rw [← hco a b hab]; simpa using hpa)]
      exact ih

theorem filterMap_eq_of_forall₂ {α : Type} (g : FSNode → Option α)
    (hco : ∀ a b, TreeEq a b → g a = g b) :
    ∀ {l₁ l₂ : List FSNode}, List.Forall₂ TreeEq l₁ l₂ →
      l₁.filterMap g = l₂.filterMap g := by
  intro l₁ l₂ h
  induction h with
  | nil => rfl
  | @cons a b t₁ t₂ hab ht ih =>
    rw [List.filterMap_cons, List.filterMap_cons, hco a b hab, ih]

theorem sortByName_forall₂ {cs₁ mid cs₂ : List FSNode}
    (hf : List.Forall₂ TreeEq cs₁ mid) (hp : mid.Perm cs₂)
    (hnd : (cs₁.map nodeName).Nodup) :
    List.Forall₂ TreeEq (sortByName cs₁) (sortByName cs₂) := by
  apply forall₂_of_sorted_perm
  · exact List.sorted_mergeSort byNameLe_trans byNameLe_total cs₁
  · exact List.sorted_mergeSort byNameLe_trans byNameLe_total cs₂
  · exact ((List.mergeSort_perm cs₁ byNameLe).map nodeName).nodup_iff.mpr hnd
  · obtain ⟨mid', hf', hpm⟩ :=
      forall₂_perm_left ((List.mergeSort_perm cs₁ byNameLe).symm) hf
    exact ⟨mid', hf',
      (hpm.symm.trans hp).trans (List.mergeSort_perm cs₂ byNameLe).symm⟩

theorem childDirs_forall₂ (cfg : TreeCfg) {l₁ l₂ : List FSNode}
    (h : List.Forall₂ TreeEq l₁ l₂) :
    List.Forall₂ TreeEq (childDirs cfg l₁) (childDirs cfg l₂) := by
  apply forall₂_filter _ _ h
  intro a b hab
  rw [show isDirNode a = isDirNode b from hab.isDir_eq,
    show nodeName a = nodeName b from hab.name_eq]

theorem childFiles_eq_of_forall₂ (cfg : TreeCfg) {l₁ l₂ : List FSNode}
    (h : List.Forall₂ TreeEq l₁ l₂) :
    childFiles cfg l₁ = childFiles cfg l₂ := by
  apply filterMap_eq_of_forall₂ _ _ h
  intro a b hab
  cases hab <;> rfl

theorem walk_dir_eq_of_treeEq (cfg : TreeCfg) :
    ∀ (k : Nat) (t₁ t₂ : FSNode), sizeOf t₁ ≤ k → TreeEq t₁ t₂ → NamesOk t₁ →
      ∀ (pre : String) (isLast isRoot : Bool),
        walk_dir cfg t₁ pre isLast isRoot = walk_dir cfg t₂ pre isLast isRoot := by
  intro k
  induction k with
  | zero =>
    intro t₁ t₂ hsz _ _ _ _ _
    exact absurd hsz (by cases t₁ <;> simp)
  | succ k ih =>
    intro t₁ t₂ hsz heq hok pre isLast isRoot
    cases heq with
    | file n s => rfl
    | dir n cs₁ mid cs₂ hf hp =>
      cases hok with
      | dir _ _ hnd hcs =>
        have hforall : List.Forall₂ TreeEq (sortByName cs₁) (sortByName cs₂) :=
          sortByName_forall₂ hf hp hnd
        have hdirs := childDirs_forall₂ cfg hforall
        have hfiles := childFiles_eq_of_forall₂ cfg hforall
        have hdlen : (childDirs cfg (sortByName cs₁)).length =
            (childDirs cfg (sortByName cs₂)).length := hdirs.length_eq
        have hmem_bound : ∀ a ∈ childDirs cfg (sortByName cs₁), sizeOf a ≤ k ∧ NamesOk a := by
          intro a ha
          have ha2 : a ∈ cs₁ := List.mem_mergeSort.mp (List.mem_of_mem_filter ha)
          refine ⟨?_, hcs a ha2⟩
          have h1 : sizeOf a < sizeOf cs₁ := List.sizeOf_lt_of_mem ha2
          have h2 : sizeOf (FSNode.dir n cs₁) = 1 + sizeOf n + sizeOf cs₁ := by
            simp
          rw [h2] at hsz
          omega
        have hmap : ∀ (d₁ d₂ : List FSNode), List.Forall₂ TreeEq d₁ d₂ →
            ∀ (j : Nat), (∀ a ∈ d₁, sizeOf a ≤ k ∧ NamesOk a) →
            ∀ (np : String) (flag : Nat → Bool),
            (List.enumFrom j d₁).map (fun p => walk_dir cfg p.2 np (flag p.1) false) =
              (List.enumFrom j d₂).map (fun p => walk_dir cfg p.2 np (flag p.1) false) := by
          intro d₁ d₂ hfa
          induction hfa with
          | nil => intro _ _ _ _; rfl
          | @cons a b u₁ u₂ hab hu ihh =>
            intro j hprem np flag
            simp only [List.enumFrom_cons, List.map_cons]
            have h₁ := hprem a (List.mem_cons_self a u₁)
            rw [ih a b h₁.1 hab h₁.2 np (flag j) false]
            rw [ihh (j + 1) (fun x hx => hprem x (List.mem_cons_of_mem a hx)) np flag]
        conv_lhs => unfold walk_dir
        conv_rhs => unfold walk_dir
        simp only [← hfiles, ← hdlen]
        by_cases hsum : cfg.summarize_dirs.contains n = true
        · have hmem : n ∈ cfg.summarize_dirs := by simpa using hsum
          simp [hmem]
        · have hmap2 : ∀ (d₁ d₂ : List FSNode), List.Forall₂ TreeEq d₁ d₂ →
              (∀ a ∈ d₁, sizeOf a ≤ k ∧ NamesOk a) →
              ∀ (np : String) (flag : Nat → Bool),
              d₁.enum.attach.map (fun p => walk_dir cfg p.1.2 np (flag p.1.1) false) =
                d₂.enum.attach.map (fun p => walk_dir cfg p.1.2 np (flag p.1.1) false) := by
            intro d₁ d₂ hfa hb np flag
            rw [List.attach_map_val d₁.enum (fun q => walk_dir cfg q.2 np (flag q.1) false),
              List.attach_map_val d₂.enum (fun q => walk_dir cfg q.2 np (flag q.1) false)]
            exact hmap d₁ d₂ hfa 0 hb np flag
          rw [if_neg hsum, if_neg hsum]
          congr 1
          congr 1
          congr 1
          exact hmap2 _ _ hdirs hmem_bound
            (if isRoot = true then "" else pre ++ if isLast = true then "    " else "│   ")
            (fun i => decide (i = (childDirs cfg (sortByName cs₁)).length - 1) &&
              decide
                ((files_section
                    (if isRoot = true then "" else pre ++ if isLast = true then "    " else "│   ")
                    (files_to_show (childFiles cfg (sortByName cs₁)))
                    (skipped_by_ext (childFiles cfg (sortByName cs₁)))
                    ((childDirs cfg (sortByName cs₁)).length +
                      (files_to_show (childFiles cfg (sortByName cs₁))).length +
                      if (skipped_by_ext (childFiles cfg (sortByName cs₁))).isEmpty = true
                      then 0 else 1)).2 =
                  (childDirs cfg (sortByName cs₁)).length +
                    (files_to_show (childFiles cfg (sortByName cs₁))).length +
                    if (skipped_by_ext (childFiles cfg (sortByName cs₁))).isEmpty = true
                    then 0 else 1))

/-- C9: the tree rendering is a deterministic function of the snapshot
and the configuration sets. Two runs over an unchanged filesystem can
differ only in the order `os.listdir` enumerates each directory's
children; for any two such presentations of the same tree (directories
listing distinct names, as every filesystem guarantees) the rendered
text is byte-identical. -/
theorem C9_tree_deterministic (cfg : TreeCfg) (t₁ t₂ : FSNode)
    (h : TreeEq t₁ t₂) (hok : NamesOk t₁) :
    get_directory_structure cfg t₁ = get_directory_structure cfg t₂ := by
  unfold get_directory_structure
  rw [walk_dir_eq_of_treeEq cfg (sizeOf t₁) t₁ t₂ le_rfl h hok]

/-- C9 witness: a concrete root whose two children are listed in the two
possible orders renders identically. -/
theorem C9_tree_deterministic_witness :
    get_directory_structure ⟨[], [], []⟩ (.dir "r" [.file "b.py" 1, .file "a.py" 2]) =
      get_directory_structure ⟨[], [], []⟩ (.dir "r" [.file "a.py" 2, .file "b.py" 1]) := by
  apply C9_tree_deterministic
  · exact TreeEq.dir "r" _ [FSNode.file "b.py" 1, FSNode.file "a.py" 2] _
      (List.Forall₂.cons (TreeEq.file "b.py" 1)
        (List.Forall₂.cons (TreeEq.file "a.py" 2) List.Forall₂.nil))
      (List.Perm.swap (FSNode.file "a.py" 2) (FSNode.file "b.py" 1) [])
  · refine NamesOk.dir "r" _ (by decide) ?_
    intro c hc
    rcases List.mem_cons.mp hc with rfl | hc'
    · exact NamesOk.file _ _
    · rcases List.mem_cons.mp hc' with rfl | hc''
      · exact NamesOk.file _ _
      · cases hc''

end GenCtx
